import Mathlib

/-!
Shallow embedding of `src/foggle/index.js` (the foggle-redux client-side
feature-flag layer) and proofs about its specification.

The embedding models:
* JS numbers as far as the code distinguishes them (finite value, NaN, ±Infinity);
* the `defaultOptions` closure state of `FoggleConfig`, together with a small
  heap of header objects so that object identity/aliasing (object spread is a
  shallow copy) is captured faithfully;
* the render logic of `FoggleConsumer` and of the component produced by
  `withFoggle` (first match by `id`, then
  `manually_activated || isBefore(release_date, new Date())`, where
  date-fns `isBefore` is a strict `<` on time values);
* `componentDidMount` of the private provider, whose
  `setInterval(function update(){...}.bind(this)(), interval)` idiom performs
  one immediate fetch and then schedules the bound callback at the interval.
-/

namespace Foggle

/-- A JS number as far as this code distinguishes them: a finite (integral)
value, NaN, or a signed infinity. -/
inductive JSNum
  | num (v : Int)
  | nan
  | inf
  | negInf
deriving DecidableEq, Repr

/-- JS global `isNaN` restricted to number arguments: true exactly on NaN. -/
def JSNum.isNaN : JSNum → Bool
  | .nan => true
  | _ => false

/-- JS `Number.isFinite` restricted to number arguments. -/
def JSNum.isFinite : JSNum → Bool
  | .num _ => true
  | _ => false

/-- A JS value in the positions where this code passes either a string or a
plain object holding string entries (the `name` argument of `addHeader`). -/
inductive JSArg
  | str (s : String)
  | obj (m : List (String × String))
deriving DecidableEq, Repr

/-- JS property-key coercion: a plain object used as a computed property key
stringifies to `"[object Object]"`; a string is used as is. -/
def JSArg.toPropertyKey : JSArg → String
  | .str s => s
  | .obj _ => "[object Object]"

/-- Entries contributed by object-spreading a `JSArg`: an object contributes
its own entries; a string contributes its characters under index keys. -/
def JSArg.spreadEntries : JSArg → List (String × String)
  | .obj m => m
  | .str t => (List.range t.length).map (fun i => (toString i, (t.toList.getD i ' ').toString))

/-- A JS plain object used as a header map: insertion-ordered string keys with
(string or `undefined`) values. -/
abbrev HeaderMap := List (String × Option String)

/-- JS property assignment `m[k] = v`: overwrite in place when the key exists,
otherwise append (JS objects keep insertion order for string keys). -/
def HeaderMap.set (m : HeaderMap) (k : String) (v : Option String) : HeaderMap :=
  if m.any (fun p => p.1 = k) then
    m.map (fun p => if p.1 = k then (k, v) else p)
  else
    m ++ [(k, v)]

/-- Object spread `{ ...m, ...entries }`: each spread entry is assigned in
order, last write wins. -/
def HeaderMap.mergeEntries (m : HeaderMap) (entries : List (String × String)) : HeaderMap :=
  entries.foldl (fun acc p => acc.set p.1 (some p.2)) m

/-- The closure state of one `FoggleConfig` call: the `defaultOptions` record
plus a heap of allocated header objects. `headersRef` is the index, in the
heap, of the object currently bound to `defaultOptions.headers`; keeping the
heap explicit captures that object spread (`{ ...defaultOptions }`) copies the
reference to the headers object, not its contents. -/
structure JSState where
  heap : List HeaderMap
  host : Option String
  updateInterval : JSNum
  headersRef : Nat
deriving DecidableEq, Repr

/-- Read the header object a reference points to. -/
def heapGet (s : JSState) (r : Nat) : HeaderMap :=
  s.heap.getD r []

/-- Overwrite the header object a reference points to (in-place mutation of a
shared JS object). -/
def heapWrite (s : JSState) (r : Nat) (m : HeaderMap) : JSState :=
  { s with heap := s.heap.set r m }

/-- Allocate a fresh header object, returning the new state and its reference. -/
def alloc (s : JSState) (m : HeaderMap) : JSState × Nat :=
  ({ s with heap := s.heap ++ [m] }, s.heap.length)

/-- JS `console.assert(cond, msg)`: logs `msg` when `cond` is falsy and always
returns; it never throws and never interrupts the caller. -/
def consoleAssert (cond : Bool) (msg : String) : List String :=
  if cond then [] else [msg]

/-- JS truthiness of the `host` argument (`undefined` and the empty string are
falsy; every other string is truthy). -/
def hostTruthy : Option String → Bool
  | none => false
  | some s => s ≠ ""

/-- Constructor `FoggleConfig(host)`:
`console.assert(host, 'Host not specified. ...')`, then
`defaultOptions = { updateInterval: 1000 * 60 * 10, headers: {}, host }` and
the method object closing over it is returned. The result is the closure
state (with one freshly allocated empty headers object) paired with the
console output produced by the assert. -/
def FoggleConfig (host : Option String) : JSState × List String :=
  (⟨[[]], host, .num (1000 * 60 * 10), 0⟩,
   consoleAssert (hostTruthy host) "Host not specified. Please pass a host to the FoggleConfig")

/-- Method `getHost()`: returns `defaultOptions.host`. -/
def getHost (s : JSState) : Option String :=
  s.host

/-- Method `getUpdateInterval()`: returns `defaultOptions.updateInterval`. -/
def getUpdateInterval (s : JSState) : JSNum :=
  s.updateInterval

/-- Method `getHeaders()`: returns `{ ...defaultOptions.headers }`, a fresh shallow
copy; modelled by its contents, the map currently stored at `headersRef`. -/
def getHeadersVal (s : JSState) : HeaderMap :=
  heapGet s s.headersRef

/-- The object returned by `getOptions()`: the spread `{ ...defaultOptions }`
copies the primitive fields and copies the headers object by reference. -/
structure OptionsObj where
  host : Option String
  updateInterval : JSNum
  headersRef : Nat
deriving DecidableEq, Repr

/-- Method `getOptions()`: returns `{ ...defaultOptions }` (a shallow copy: the
`headers` field of the returned object is the same object reference as
`defaultOptions.headers`). -/
def getOptions (s : JSState) : OptionsObj :=
  ⟨s.host, s.updateInterval, s.headersRef⟩

/-- Method `setUpdateInterval(interval)`:
`if (isNaN(interval)) throw new Error('interval must be of type number'); defaultOptions.updateInterval = interval;`
Returns the state after the call and the thrown error message, if any (the
throw happens before the assignment, so on error the state is unchanged). -/
def setUpdateInterval (s : JSState) (interval : JSNum) : JSState × Option String :=
  if interval.isNaN then
    (s, some "interval must be of type number")
  else
    ({ s with updateInterval := interval }, none)

/-- Evaluation of `typeof key` inside `addHeader`: the identifier `key` is not declared in
any enclosing scope of `src/foggle/index.js`, and `typeof` applied to an
unresolved identifier evaluates to `"undefined"` (it is the one place JS does
not raise a ReferenceError). -/
def typeofUnresolvedKey : String := "undefined"

/-- Method `addHeader(name = '', value)`:
`if (typeof key === 'object' && typeof value === 'undefined') { defaultOptions.headers = { ...defaultOptions.headers, ...name } } else { defaultOptions.headers[name] = value }`
The test reads the unresolved identifier `key` (see `typeofUnresolvedKey`),
so the first branch is unreachable and the else branch assigns
`headers[name] = value`, coercing `name` to a property key. -/
def addHeader (s : JSState) (name : JSArg) (value : Option String) : JSState :=
  if typeofUnresolvedKey = "object" ∧ value = none then
    let m := (heapGet s s.headersRef).mergeEntries name.spreadEntries
    let a := alloc s m
    { a.1 with headersRef := a.2 }
  else
    heapWrite s s.headersRef ((heapGet s s.headersRef).set name.toPropertyKey value)

/-- Method `clearHeaders()`: `defaultOptions.headers = {}` rebinds the field to a
fresh empty object. -/
def clearHeaders (s : JSState) : JSState :=
  let a := alloc s []
  { a.1 with headersRef := a.2 }

/-- A mutation the caller can apply to the object returned by `getOptions()`:
reassigning one of its own fields, or assigning an entry of the headers object
its `headers` field points to (the latter mutates the shared object on the
heap). -/
inductive OptionsMutation
  | setHost (h : Option String)
  | setInterval (n : JSNum)
  | setHeadersField (r : Nat)
  | setHeaderEntry (k : String) (v : Option String)
deriving DecidableEq, Repr

/-- Whether a mutation writes through the shared headers reference
(`o.headers[k] = v`) rather than only reassigning the copy's own fields. -/
def OptionsMutation.touchesSharedHeaders : OptionsMutation → Bool
  | .setHeaderEntry _ _ => true
  | _ => false

/-- Apply one mutation to the pair (closure state, options object returned by
`getOptions`). Field reassignments change only the caller's copy; a header
entry assignment writes through the shared reference into the heap. -/
def applyMutation (s : JSState) (o : OptionsObj) : OptionsMutation → JSState × OptionsObj
  | .setHost h => (s, { o with host := h })
  | .setInterval n => (s, { o with updateInterval := n })
  | .setHeadersField r => (s, { o with headersRef := r })
  | .setHeaderEntry k v =>
      (heapWrite s o.headersRef ((heapGet s o.headersRef).set k v), o)

/-- Apply a sequence of mutations to the options copy, threading the state. -/
def applyMutations (s : JSState) (o : OptionsObj) (ms : List OptionsMutation) :
    JSState × OptionsObj :=
  ms.foldl (fun p m => applyMutation p.1 p.2 m) (s, o)

/-- A feature record as delivered in `features.enabledFeatures`:
`{ id, manually_activated, release_date }`, with the release date a
point-in-time value (milliseconds). -/
structure FeatureRecord where
  id : String
  manually_activated : Bool
  release_date : Int
deriving DecidableEq, Repr

/-- The activation condition applied to a found record in both render sites:
`found.manually_activated || isBefore(found.release_date, new Date())`, where
date-fns `isBefore` is the strict `<` on time values and `new Date()` is the
current time `now`. -/
def isActive (found : FeatureRecord) (now : Int) : Bool :=
  found.manually_activated || decide (found.release_date < now)

/-- Body of `FoggleConsumer.render`:
`const found = value.features.enabledFeatures.find(feature => feature.id === id); if (found) { return (found.manually_activated || isBefore(found.release_date, new Date())) ? children : null; } return null;`
The result is whether `children` is rendered (`null` means not rendered). -/
def consumerRender (enabledFeatures : List FeatureRecord) (id : String) (now : Int) : Bool :=
  match enabledFeatures.find? (fun feature => feature.id = id) with
  | some found => isActive found now
  | none => false

/-- Body of the render of the `FoggyComponent` class produced by `withFoggle`:
`const found = value.features.enabledFeatures.find(feature => feature.id === featureId); if (found) { return found.manually_activated || isBefore(found.release_date, new Date()) ? <Component .../> : null; } return null;`
The result is whether the wrapped component is rendered. -/
def withFoggleRender (enabledFeatures : List FeatureRecord) (featureId : String) (now : Int) :
    Bool :=
  match enabledFeatures.find? (fun feature => feature.id = featureId) with
  | some found => found.manually_activated || decide (found.release_date < now)
  | none => false

/-- Modelled from the spec: the initial `enabledFeatures` slice of the redux
store state, produced by `src/foggle/state/reducer`, a file of this repository
that is not under `src/`. Per the spec, `FlagStore.current()` before any
successful fetch returns an empty sequence; the `createContext` default in
`src/foggle/index.js` likewise carries `enabledFeatures: []`. -/
def initialEnabledFeatures : List FeatureRecord := []

/-- One invocation of the network collaborator
`checkFeatures(getHost(), getHeaders())`: the time it happens (ms after
mount) and the arguments read from the configuration at that time. -/
structure FetchCall where
  time : Int
  host : Option String
  headers : HeaderMap
deriving DecidableEq, Repr

/-- The delay `setInterval` uses for a configured interval (the configured
interval here is always the finite default or a finite value set by
`setUpdateInterval`; degenerate timer values coerce to 0). -/
def JSNum.timerDelay : JSNum → Int
  | .num v => v
  | _ => 0

/-- Model of JS `setInterval(cb, delay)`: the callback fires at times
`(k + 1) * delay` for `k = 0, 1, 2, …`; the trace is truncated to the first
`ticks` firings. -/
def setIntervalTrace (cb : Int → FetchCall) (delay : Int) (ticks : Nat) : List FetchCall :=
  (List.range ticks).map (fun (k : Nat) => cb (((k : Int) + 1) * delay))

/-- Body of `componentDidMount` of the private provider:
`setInterval(function update() { this.props.checkFeatures(this.props.config.getHost(), this.props.config.getHeaders()); return update.bind(this); }.bind(this)(), this.props.config.getUpdateInterval())`
The bound `update` is invoked immediately (the trailing `()`), performing one
`checkFeatures(host, headers)` call at time 0 and evaluating to the bound
`update` function, which is what `setInterval` receives as its callback; each
later firing calls `checkFeatures(getHost(), getHeaders())` again. The result
is the trace of fetch calls for the first `ticks` timer firings. -/
def componentDidMount (s : JSState) (ticks : Nat) : List FetchCall :=
  let update : Int → FetchCall := fun t => ⟨t, getHost s, getHeadersVal s⟩
  update 0 :: setIntervalTrace update (getUpdateInterval s).timerDelay ticks

/-- Claim C1: for every feature record and every current time, the activation
decision is true iff the record's `manually_activated` field is true or its
`release_date` is strictly before the current time; when `release_date`
equals the current time (so that the date clause contributes nothing), the
decision is false. -/
theorem isActive_decision (r : FeatureRecord) (now : Int) :
    (isActive r now = true ↔ (r.manually_activated = true ∨ r.release_date < now)) ∧
    (r.release_date = now → r.manually_activated = false → isActive r now = false) := by
  constructor
  · simp [isActive]
  · intro he hm
    simp [isActive, hm, he]

/-- Concrete instance of `isActive_decision`: a record that is not manually
activated and whose release date equals the current time is inactive. -/
theorem isActive_decision_witness :
    isActive ⟨"a", false, 5⟩ 5 = false :=
  (isActive_decision ⟨"a", false, 5⟩ 5).2 rfl rfl

/-- Claim C2, evaluated at the failing input: `addHeader("X","1")` followed by
`addHeader({"Y":"2"})` does not merge the object into the headers. Because the
branch condition reads the unresolved identifier `key` (whose `typeof` is
`"undefined"`), the object argument falls into the single-pair branch, is
coerced to the property key `"[object Object]"`, and is assigned the value
`undefined` — the resulting headers are `{X:"1", "[object Object]": undefined}`
rather than the documented `{X:"1", Y:"2"}`. -/
theorem addHeader_object_form_broken :
    getHeadersVal
        (addHeader (addHeader (FoggleConfig (some "h")).1 (.str "X") (some "1"))
          (.obj [("Y", "2")]) none)
      = [("X", some "1"), ("[object Object]", none)] ∧
    getHeadersVal
        (addHeader (addHeader (FoggleConfig (some "h")).1 (.str "X") (some "1"))
          (.obj [("Y", "2")]) none)
      ≠ [("X", some "1"), ("Y", some "2")] := by
  constructor
  · rfl
  · decide

/-- Claim C3 counterexample: `Infinity` is not a finite number, yet
`setUpdateInterval(Infinity)` does not fail — `isNaN(Infinity)` is false — and
the stored interval becomes `Infinity`. -/
theorem setUpdateInterval_infinity_accepted :
    JSNum.isFinite .inf = false ∧
    (setUpdateInterval (FoggleConfig (some "h")).1 .inf).2 = none ∧
    getUpdateInterval (setUpdateInterval (FoggleConfig (some "h")).1 .inf).1 = .inf := by
  decide

/-- Claim C3 (amended): `setUpdateInterval(n)` fails with an error iff `n` is
NaN (the `isNaN` check; non-finite infinities are accepted); whenever it fails
the configuration state — hence the interval returned by a subsequent
`getUpdateInterval` — is unchanged; whenever it succeeds the stored interval
becomes `n`. -/
theorem setUpdateInterval_behavior (s : JSState) (n : JSNum) :
    ((setUpdateInterval s n).2 ≠ none ↔ n.isNaN = true) ∧
    ((setUpdateInterval s n).2 ≠ none → (setUpdateInterval s n).1 = s) ∧
    (n.isNaN = false → getUpdateInterval (setUpdateInterval s n).1 = n) := by
  cases n <;>
    simp [setUpdateInterval, JSNum.isNaN, getUpdateInterval]

/-- Concrete instance of `setUpdateInterval_behavior`: a NaN argument leaves
the configuration unchanged, and a finite argument is stored. -/
theorem setUpdateInterval_behavior_witness :
    (setUpdateInterval (FoggleConfig (some "h")).1 .nan).1 = (FoggleConfig (some "h")).1 ∧
    getUpdateInterval (setUpdateInterval (FoggleConfig (some "h")).1 (.num 5)).1 = .num 5 :=
  ⟨(setUpdateInterval_behavior (FoggleConfig (some "h")).1 .nan).2.1 (by decide),
   (setUpdateInterval_behavior (FoggleConfig (some "h")).1 (.num 5)).2.2 (by decide)⟩

/-- Claim C4 counterexample: constructing with the empty (falsy) host does not
fail fast — `console.assert` only logs its message — and a config object whose
host is the invalid empty string is returned to the caller. -/
theorem FoggleConfig_empty_host_returns_config :
    hostTruthy (getHost (FoggleConfig (some "")).1) = false ∧
    (FoggleConfig (some "")).2 = ["Host not specified. Please pass a host to the FoggleConfig"] ∧
    getUpdateInterval (FoggleConfig (some "")).1 = .num 600000 := by
  decide

/-- Claim C4 (amended): construction never fails — with an empty or absent
host a console assertion message is logged but a config object carrying the
given host is still returned; in every case the defaults are
`updateInterval = 600000` and `headers = {}`; exactly the truthy (non-empty,
present) hosts produce no console message. -/
theorem FoggleConfig_construction (host : Option String) :
    getHost (FoggleConfig host).1 = host ∧
    getUpdateInterval (FoggleConfig host).1 = .num 600000 ∧
    getHeadersVal (FoggleConfig host).1 = [] ∧
    ((FoggleConfig host).2 = [] ↔ hostTruthy host = true) := by
  refine ⟨rfl, rfl, rfl, ?_⟩
  by_cases h : hostTruthy host = true <;>
    simp [FoggleConfig, consoleAssert, h]

/-- Claim C6: before any successful fetch the flag snapshot is the empty
sequence, and the activation query on that empty snapshot returns "not
active" for every feature id and every time. -/
theorem initial_snapshot_inactive :
    initialEnabledFeatures = ([] : List FeatureRecord) ∧
    ∀ (id : String) (now : Int), consumerRender initialEnabledFeatures id now = false :=
  ⟨rfl, fun _ _ => rfl⟩

/-- Helper: `List.find?` returns the element at the first index satisfying the
predicate. -/
lemma find_eq_of_first {α : Type} (p : α → Bool) :
    ∀ (l : List α) (i : Nat) (hi : i < l.length),
      p (l.get ⟨i, hi⟩) = true →
      (∀ (j : Nat) (hj : j < i), p (l.get ⟨j, Nat.lt_trans hj hi⟩) = false) →
      l.find? p = some (l.get ⟨i, hi⟩)
  | [], i, hi, _, _ => absurd hi (Nat.not_lt_zero i)
  | a :: l, 0, _, hp, _ => by
      have ha : p a = true := hp
      simp [List.find?, ha]
  | a :: l, i + 1, hi, hp, hfirst => by
      have ha : p a = false := hfirst 0 (Nat.succ_pos i)
      have htail :=
        find_eq_of_first p l i (Nat.lt_of_succ_lt_succ hi) hp
          (fun j hj => hfirst (j + 1) (Nat.succ_lt_succ hj))
      simp [List.find?, ha, htail]

/-- Claim C5: the query locates the first record whose id matches. If no
record matches, the render result is "not active" (false, the rendered
`null`) — and, the query being a total function, no exception is raised. If
some record matches, the result is the activation evaluator's boolean on the
first matching record. -/
theorem consumerRender_first_match (fs : List FeatureRecord) (fid : String) (now : Int) :
    ((∀ f ∈ fs, f.id ≠ fid) → consumerRender fs fid now = false) ∧
    (∀ (i : Nat) (hi : i < fs.length),
      (fs.get ⟨i, hi⟩).id = fid →
      (∀ (j : Nat) (hj : j < i), (fs.get ⟨j, Nat.lt_trans hj hi⟩).id ≠ fid) →
      consumerRender fs fid now = isActive (fs.get ⟨i, hi⟩) now) := by
  constructor
  · intro hnone
    have h : fs.find? (fun feature => feature.id = fid) = none := by
      rw [List.find?_eq_none]
      intro f hf
      simp [hnone f hf]
    simp [consumerRender, h]
  · intro i hi hp hfirst
    have h :=
      find_eq_of_first (fun feature => decide (feature.id = fid)) fs i hi
        (by simpa using hp)
        (fun j hj => by simpa using hfirst j hj)
    simp only [consumerRender]
    rw [h]

/-- Concrete instance of `consumerRender_first_match`: with two records of the
same id, the decision is taken on the first one (here: release date not yet
reached, so the children are not rendered even though the second record is
manually activated). -/
theorem consumerRender_first_match_witness :
    consumerRender [⟨"a", false, 9⟩, ⟨"a", true, 0⟩] "a" 5 = isActive ⟨"a", false, 9⟩ 5 :=
  (consumerRender_first_match [⟨"a", false, 9⟩, ⟨"a", true, 0⟩] "a" 5).2 0 (by decide)
    (by decide)
    (fun j hj => absurd hj (Nat.not_lt_zero j))

/-- Claim C9: the two query paths agree — for every feature list, feature id
and current time, `FoggleConsumer` renders its children exactly when the
`withFoggle` wrapper renders the wrapped component, namely exactly when the
first record matching the id exists and is manually activated or has a
release date strictly before the current time. -/
theorem consumer_withFoggle_agree (fs : List FeatureRecord) (fid : String) (now : Int) :
    consumerRender fs fid now = withFoggleRender fs fid now ∧
    (consumerRender fs fid now = true ↔
      ∃ f, fs.find? (fun feature => feature.id = fid) = some f ∧
        (f.manually_activated = true ∨ f.release_date < now)) := by
  constructor
  · rfl
  · cases h : fs.find? (fun feature => decide (feature.id = fid)) with
    | none => simp [consumerRender, h]
    | some f => simp [consumerRender, h, isActive]

/-- Claim C7 counterexample: `getOptions()` is only a shallow copy — assigning
an entry of the returned object's nested headers object writes through the
shared reference, and the change is observed by a subsequent `getHeaders()`:
the configuration's headers change from `{}` to `{X:"1"}`. -/
theorem getOptions_shared_headers :
    getHeadersVal (FoggleConfig (some "h")).1 = [] ∧
    getHeadersVal
        (applyMutations (FoggleConfig (some "h")).1 (getOptions (FoggleConfig (some "h")).1)
          [.setHeaderEntry "X" (some "1")]).1
      = [("X", some "1")] := by
  decide

/-- Helper: a mutation sequence that never writes through the shared headers
reference leaves the closure state untouched, whatever options copy it is
applied to. -/
lemma applyMutations_state_frame :
    ∀ (ms : List OptionsMutation) (s : JSState) (o : OptionsObj),
      (∀ m ∈ ms, m.touchesSharedHeaders = false) →
      (applyMutations s o ms).1 = s := by
  intro ms
  induction ms with
  | nil => intro s o _; rfl
  | cons m ms ih =>
    intro s o h
    have hm : m.touchesSharedHeaders = false := h m (List.mem_cons_self m ms)
    have hrest : ∀ m2 ∈ ms, m2.touchesSharedHeaders = false :=
      fun m2 hm2 => h m2 (List.mem_cons_of_mem m hm2)
    cases m with
    | setHost x => exact ih s { o with host := x } hrest
    | setInterval x => exact ih s { o with updateInterval := x } hrest
    | setHeadersField x => exact ih s { o with headersRef := x } hrest
    | setHeaderEntry k v => simp [OptionsMutation.touchesSharedHeaders] at hm

/-- Claim C7 (amended): `getOptions()` returns a shallow copy — for every
sequence of mutations of the returned object that only reassigns the copy's
own fields (its host, its update interval, or its headers field itself) and
never writes an entry through the shared nested headers reference, the
configuration observed by subsequent `getOptions` / `getHeaders` / `getHost` /
`getUpdateInterval` calls is unchanged. (Writing an entry of the nested
headers object, by contrast, is visible to the configuration — see the
counterexample.) -/
theorem getOptions_top_level_copy (s : JSState) (ms : List OptionsMutation)
    (h : ∀ m ∈ ms, m.touchesSharedHeaders = false) :
    (applyMutations s (getOptions s) ms).1 = s ∧
    getOptions (applyMutations s (getOptions s) ms).1 = getOptions s ∧
    getHeadersVal (applyMutations s (getOptions s) ms).1 = getHeadersVal s ∧
    getHost (applyMutations s (getOptions s) ms).1 = getHost s ∧
    getUpdateInterval (applyMutations s (getOptions s) ms).1 = getUpdateInterval s := by
  have hs := applyMutations_state_frame ms s (getOptions s) h
  exact ⟨hs, by rw [hs], by rw [hs], by rw [hs], by rw [hs]⟩

/-- Concrete instance of `getOptions_top_level_copy`: reassigning every own
field of the returned copy leaves the configuration state unchanged. -/
theorem getOptions_top_level_copy_witness :
    (applyMutations (FoggleConfig (some "h")).1 (getOptions (FoggleConfig (some "h")).1)
        [.setHost none, .setInterval .nan, .setHeadersField 7]).1
      = (FoggleConfig (some "h")).1 :=
  (getOptions_top_level_copy (FoggleConfig (some "h")).1
    [.setHost none, .setInterval .nan, .setHeadersField 7] (by decide)).1

/-- Claim C8: on mount the poller immediately performs one fetch — invoking
the network collaborator with the configured host and headers at time 0 —
and then schedules recurring fetches, the k-th at time (k+1) times the
configured update interval, each again carrying the configured host and
headers; when the interval is positive, the fetch at time 0 is the only
immediate one. -/
theorem componentDidMount_schedule (s : JSState) (v : Int) (ticks : Nat)
    (hs : s.updateInterval = .num v) (hv : 0 < v) :
    componentDidMount s ticks =
      ⟨0, getHost s, getHeadersVal s⟩ ::
        (List.range ticks).map
          (fun (k : Nat) => ⟨((k : Int) + 1) * v, getHost s, getHeadersVal s⟩) ∧
    ((componentDidMount s ticks).filter (fun c => c.time = 0)).length = 1 := by
  have hd : (getUpdateInterval s).timerDelay = v := by
    show s.updateInterval.timerDelay = v
    rw [hs]
    rfl
  have h1 : componentDidMount s ticks =
      ⟨0, getHost s, getHeadersVal s⟩ ::
        (List.range ticks).map
          (fun (k : Nat) => ⟨((k : Int) + 1) * v, getHost s, getHeadersVal s⟩) := by
    simp only [componentDidMount, setIntervalTrace]
    rw [hd]
  refine ⟨h1, ?_⟩
  rw [h1]
  rw [List.filter_cons_of_pos (by simp)]
  rw [List.filter_map]
  have hnil : (List.range ticks).filter
      ((fun c : FetchCall => decide (c.time = 0)) ∘
        (fun (k : Nat) => ⟨((k : Int) + 1) * v, getHost s, getHeadersVal s⟩)) = [] := by
    rw [List.filter_eq_nil_iff]
    intro k _
    have hk : (0 : Int) < (k : Int) + 1 := by omega
    simp [Function.comp, ne_of_gt (mul_pos hk hv)]
  rw [hnil]
  simp

/-- Concrete instance of `componentDidMount_schedule`: with the default
configuration (interval 600000) and one timer firing, exactly one fetch
happens at time 0. -/
theorem componentDidMount_schedule_witness :
    ((componentDidMount (FoggleConfig (some "h")).1 1).filter
        (fun c => c.time = 0)).length = 1 :=
  (componentDidMount_schedule (FoggleConfig (some "h")).1 600000 1 rfl (by decide)).2

/-- Claim C10: the configuration mutators are frame-disjoint — every
`addHeader` or `clearHeaders` call leaves the host and the update interval
unchanged, and every successful `setUpdateInterval` call leaves the host and
the headers mapping unchanged. -/
theorem config_mutators_frame :
    (∀ (s : JSState) (name : JSArg) (value : Option String),
      getHost (addHeader s name value) = getHost s ∧
      getUpdateInterval (addHeader s name value) = getUpdateInterval s) ∧
    (∀ (s : JSState),
      getHost (clearHeaders s) = getHost s ∧
      getUpdateInterval (clearHeaders s) = getUpdateInterval s) ∧
    (∀ (s : JSState) (n : JSNum), (setUpdateInterval s n).2 = none →
      getHost (setUpdateInterval s n).1 = getHost s ∧
      getHeadersVal (setUpdateInterval s n).1 = getHeadersVal s) := by
  refine ⟨?_, ?_, ?_⟩
  · intro s name value
    unfold addHeader
    split <;> exact ⟨rfl, rfl⟩
  · intro s
    exact ⟨rfl, rfl⟩
  · intro s n h
    cases hn : n.isNaN with
    | true => simp [setUpdateInterval, hn] at h
    | false =>
        simp only [setUpdateInterval, hn, Bool.false_eq_true, if_false]
        exact ⟨rfl, rfl⟩

/-- Concrete instance of `config_mutators_frame`: a successful interval update
leaves the host and the headers untouched. -/
theorem config_mutators_frame_witness :
    getHost (setUpdateInterval (FoggleConfig (some "h")).1 (.num 7)).1
        = getHost (FoggleConfig (some "h")).1 ∧
    getHeadersVal (setUpdateInterval (FoggleConfig (some "h")).1 (.num 7)).1
        = getHeadersVal (FoggleConfig (some "h")).1 :=
  config_mutators_frame.2.2 (FoggleConfig (some "h")).1 (.num 7) rfl

end Foggle
